import Mathlib

/-!
# Verification of the FashionMNIST tutorial notebooks

Shallow embedding of the two tutorial notebooks
(`6-optimization.ipynb`, `7-inference.ipynb`) and the model-building
notebook. Tensors of floats are modelled as lists of rationals; the
notebook code under verification is pure orchestration (a feed-forward
pass, a training loop, an evaluation loop, state-dict persistence and
an export/inference round trip), so every operation it performs is
embedded as an executable Lean function and the claims of the
specification are settled as theorems about those functions.
-/

set_option autoImplicit false

/-- A vector of scalars (one row of a tensor), modelled over `ℚ`. -/
abbrev Vec := List ℚ

/-- A matrix: a list of rows. -/
abbrev Mat := List Vec

/-- Dot product of two vectors, embedding the scalar accumulation inside
`x @ W.T`; trailing elements of the longer vector are ignored, matching
the fact that the notebooks never validate shapes at call time. -/
def dot (a b : Vec) : ℚ := (List.zipWith (· * ·) a b).sum

/-- `nn.Linear` forward: `output = input · weightᵀ + bias`, where `weight`
has one row per output feature. Component `j` of the output is
`dot (weight[j]) input + bias[j]`. -/
def linearForward (weight : Mat) (bias : Vec) (input : Vec) : Vec :=
  List.zipWith (· + ·) (weight.map (fun row => dot row input)) bias

/-- `nn.ReLU` forward: elementwise `max 0`. -/
def relu (input : Vec) : Vec := input.map (fun v => max 0 v)

/-- One stage of the `nn.Sequential` stack of the notebooks: either a
linear stage owning a weight matrix and a bias vector, or the stateless
ReLU nonlinearity. -/
inductive Stage where
  | linear (weight : Mat) (bias : Vec)
  | reluStage
  deriving DecidableEq

/-- The kind of a stage, used to compare model structures. -/
inductive StageKind where
  | lin
  | nonlin
  deriving DecidableEq

/-- Kind of a stage (parametric vs. non-parametric). -/
def Stage.kind : Stage → StageKind
  | .linear _ _ => .lin
  | .reluStage => .nonlin

/-- Applying one stage to an input vector. -/
def Stage.apply : Stage → Vec → Vec
  | .linear w b, x => linearForward w b x
  | .reluStage, x => relu x

/-- `nn.Sequential` forward: apply each stage in order to the running
value, first stage first. -/
def forward : List Stage → Vec → Vec
  | [], x => x
  | s :: rest, x => forward rest (s.apply x)

/-- `nn.Flatten` on one sample: a 28×28 grid becomes one row-major
vector (the batch dimension is handled by mapping over samples). -/
def flattenImg (img : Mat) : Vec := img.flatten

/-- The `linear_relu_stack` of `NeuralNetwork.__init__`:
`Linear(784,512), ReLU, Linear(512,512), ReLU, Linear(512,10), ReLU`,
with the six parameter tensors abstracted. -/
def neuralNetwork (w1 : Mat) (b1 : Vec) (w2 : Mat) (b2 : Vec)
    (w3 : Mat) (b3 : Vec) : List Stage :=
  [.linear w1 b1, .reluStage, .linear w2 b2, .reluStage, .linear w3 b3, .reluStage]

/-- `NeuralNetwork.forward` on one sample: flatten, then run the stack. -/
def nnForward (stack : List Stage) (img : Mat) : Vec :=
  forward stack (flattenImg img)

/-- `model(X)` on a batch: the flatten layer keeps the batch dimension,
so the stack is applied to each sample independently. -/
def forwardBatch (stack : List Stage) (X : List Mat) : List Vec :=
  X.map (nnForward stack)

/-- One batch as the training and evaluation loops see it: a list of
28×28 samples `X` and the matching integer class labels `y`. -/
abbrev Batch := List Mat × List ℕ

/-- The gradients the framework's reverse-mode differentiation returns
for `loss.backward()`: one `(weight-gradient, bias-gradient)` pair per
linear stage, in stage order. The autograd engine itself is an external
collaborator (out of scope per the specification), so it enters the
embedding as an oracle of this type. -/
abbrev Grads := List (Mat × Vec)

/-- One parameter array after `optimizer.step()` of plain SGD:
every scalar `p` becomes `p - lr * g`. -/
def paramUpdate (lr : ℚ) (p g : Vec) : Vec :=
  List.zipWith (fun a gg => a - lr * gg) p g

/-- `optimizer.step()` over the whole model: each linear stage's weight
rows and bias are updated from the matching gradient entry; the ReLU
stages own no parameters and are untouched. -/
def sgdUpdate (lr : ℚ) : List Stage → Grads → List Stage
  | [], _ => []
  | .reluStage :: rest, gs => .reluStage :: sgdUpdate lr rest gs
  | .linear w b :: rest, [] => .linear w b :: sgdUpdate lr rest []
  | .linear w b :: rest, (gw, gb) :: gs =>
      .linear (List.zipWith (paramUpdate lr) w gw) (paramUpdate lr b gb)
        :: sgdUpdate lr rest gs

/-- One iteration of `train_loop`'s body: forward pass, scalar loss,
`loss.backward()` (the oracle `gradFn`, which is handed the current
model and the batch, exactly the data the framework differentiates
over), then `optimizer.step()`. -/
def trainBatch (lr : ℚ) (gradFn : List Stage → Batch → Grads)
    (m : List Stage) (b : Batch) : List Stage :=
  sgdUpdate lr m (gradFn m b)

/-- `train_loop`: iterate the batches in dataloader order, performing
exactly one forward/loss/gradient/update step per batch. -/
def train_loop (lr : ℚ) (gradFn : List Stage → Batch → Grads)
    (m : List Stage) : List Batch → List Stage
  | [] => m
  | b :: bs => train_loop lr gradFn (trainBatch lr gradFn m b) bs

/-- First index of the maximum value, the semantics shared by
`tensor.argmax` and `numpy.argmax` (ties resolve to the first
occurrence): `i` is the index of the head of the remaining list, `b`
and `bv` the best index and value seen so far. -/
def argmaxAux (i b : ℕ) (bv : ℚ) : Vec → ℕ
  | [] => b
  | x :: xs => if bv < x then argmaxAux (i + 1) i x xs else argmaxAux (i + 1) b bv xs

/-- `scores.argmax`: index of the (first) maximum score. -/
def argmaxIdx : Vec → ℕ
  | [] => 0
  | x :: xs => argmaxAux 1 0 x xs

/-- `(pred.argmax(1) == y).sum()`: how many samples of the batch have
their true label at the index of their maximum score. -/
def countCorrect (preds : List Vec) (ys : List ℕ) : ℕ :=
  (List.zipWith (fun p yy => decide (argmaxIdx p = yy)) preds ys).count true

/-- The mutable framework state the notebook cells thread through the
loops: the model (its stage list, hence all parameters) and the global
gradient-tracking flag that `torch.no_grad()` manipulates. -/
structure TorchState where
  model : List Stage
  gradEnabled : Bool
  deriving DecidableEq

/-- The body of `test_loop`'s `for X, y in dataloader` loop: read the
model out of the running state, accumulate the batch's loss value and
its count of correct top-1 predictions. The state is threaded through
every iteration exactly as the interpreter threads `model`. -/
def testStep (lossB : List Vec → List ℕ → ℚ)
    (acc : TorchState × ℚ × ℚ) (b : Batch) : TorchState × ℚ × ℚ :=
  let pred := forwardBatch acc.1.model b.1
  (acc.1, acc.2.1 + lossB pred b.2, acc.2.2 + (countCorrect pred b.2 : ℚ))

/-- `test_loop`: inside `torch.no_grad()` (gradient tracking switched
off for the loop, restored after), accumulate summed loss and correct
count over the test batches, then divide both by
`size = len(dataloader.dataset)`. `lossB` is the framework's
`nn.CrossEntropyLoss` on one batch (an external collaborator), returning
that batch's scalar loss value. Returns the final state together with
the reported `(average loss, accuracy)`. -/
def test_loop (st : TorchState) (lossB : List Vec → List ℕ → ℚ)
    (batches : List Batch) (size : ℕ) : TorchState × ℚ × ℚ :=
  let inner : TorchState := { st with gradEnabled := false }
  let r := batches.foldl (testStep lossB) (inner, 0, 0)
  ({ r.1 with gradEnabled := st.gradEnabled }, r.2.1 / (size : ℚ), r.2.2 / (size : ℚ))

/-- The epoch loop of the training cell: `epochs` times, run
`train_loop` over the training batches and then `test_loop` over the
test batches, threading the framework state through both. -/
def epochsLoop (lr : ℚ) (gradFn : List Stage → Batch → Grads)
    (trainBs : List Batch) (lossB : List Vec → List ℕ → ℚ)
    (testBs : List Batch) (size : ℕ) : ℕ → TorchState → TorchState
  | 0, st => st
  | e + 1, st =>
      let st1 : TorchState := { st with model := train_loop lr gradFn st.model trainBs }
      epochsLoop lr gradFn trainBs lossB testBs size e (test_loop st1 lossB testBs size).1

/-- `model.state_dict()`: the persisted parameter mapping, one
`(weight, bias)` entry per linear stage in stage order (the notebook's
keys `linear_relu_stack.k.weight/.bias` are ordered the same way, so
the name-keyed mapping is embedded positionally). `torch.save` /
`torch.load` move this value through a file unchanged. -/
def state_dict (m : List Stage) : List (Mat × Vec) :=
  m.filterMap fun s =>
    match s with
    | .linear w b => some (w, b)
    | .reluStage => none

/-- `model.load_state_dict(sd)`: overwrite every linear stage's
parameters wholesale from the mapping, in order; a missing or leftover
entry is the notebook's unhandled missing/unexpected-key error,
embedded as `none`. -/
def load_state_dict : List Stage → List (Mat × Vec) → Option (List Stage)
  | [], [] => some []
  | [], _ :: _ => none
  | .reluStage :: rest, sd =>
      (load_state_dict rest sd).map (fun r => .reluStage :: r)
  | .linear _ _ :: _, [] => none
  | .linear _ _ :: rest, (w, b) :: sd =>
      (load_state_dict rest sd).map (fun r => .linear w b :: r)

/-- One node of the exported portable graph. Modelled from the spec:
the exporter (`torch.onnx.export`) and the independent runtime
(`onnxruntime`) are external collaborators whose files never appear in
this repository, so the portable graph is embedded from the
specification's words: the trace of the operations a single forward
pass executes, with the current parameter values frozen in. -/
inductive GraphOp where
  | flattenOp
  | gemm (weight : Mat) (bias : Vec)
  | reluOp
  deriving DecidableEq

/-- A runtime value flowing through the portable graph: either a 2-D
grid (the raw input sample) or a flat vector. -/
inductive GVal where
  | grid (m : Mat)
  | vec (v : Vec)
  deriving DecidableEq

/-- Modelled from the spec: `torch.onnx.export` records the operation
trace of one forward pass of the model — the flatten layer followed by
each stage of the stack in order — freezing the parameter values into
the graph. -/
def exportGraph (stack : List Stage) : List GraphOp :=
  GraphOp.flattenOp ::
    stack.map fun s =>
      match s with
      | .linear w b => .gemm w b
      | .reluStage => .reluOp

/-- Modelled from the spec: one step of the independent runtime, which
executes a graph node on the running value without the original
framework; a shape/kind mismatch is the runtime's unhandled error. -/
def runOp : GraphOp → GVal → Option GVal
  | .flattenOp, .grid m => some (.vec m.flatten)
  | .gemm w b, .vec v => some (.vec (linearForward w b v))
  | .reluOp, .vec v => some (.vec (relu v))
  | _, _ => none

/-- Modelled from the spec: `session.run` executes the graph nodes in
order on the input value. -/
def runGraph : List GraphOp → GVal → Option GVal
  | [], v => some v
  | op :: rest, v => (runOp op v).bind (runGraph rest)

/-- Top-1 predicted class of a runtime value (`result[0][0].argmax(0)`). -/
def GVal.argmax : GVal → ℕ
  | .vec v => argmaxIdx v
  | .grid m => argmaxIdx m.flatten

/-- `NeuralNetwork.forward` as the framework actually invokes it, with
the module's training-mode flag (toggled by `model.eval()` /
`model.train()`) and the framework's RNG seed in scope. `nn.Linear` and
`nn.ReLU` read neither: the stack contains no dropout, batch
normalization, or any other mode-dependent or random stage. -/
def Stage.applyM (training : Bool) (seed : ℕ) : Stage → Vec → Vec
  | .linear w b, x => linearForward w b x
  | .reluStage, x => relu x

/-- The sequential stack under an explicit mode flag and RNG seed. -/
def forwardM (training : Bool) (seed : ℕ) : List Stage → Vec → Vec
  | [], x => x
  | s :: rest, x => forwardM training seed rest (s.applyM training seed x)

/-- The full forward pass under an explicit mode flag and RNG seed. -/
def nnForwardM (training : Bool) (seed : ℕ) (stack : List Stage) (img : Mat) : Vec :=
  forwardM training seed stack (flattenImg img)

-- ### Theorems

/-- The evaluation loop's fold never writes the framework state it
threads: each iteration returns the state component unchanged. -/
theorem foldl_testStep_fst (lossB : List Vec → List ℕ → ℚ)
    (bs : List Batch) (a : TorchState × ℚ × ℚ) :
    (bs.foldl (testStep lossB) a).1 = a.1 := by
  induction bs generalizing a with
  | nil => rfl
  | cons b rest ih => simpa [testStep] using ih _

/-- `test_loop` hands back exactly the framework state it was given:
the model is only read and the gradient-tracking flag that
`torch.no_grad()` cleared is restored on exit. -/
theorem test_loop_fst (st : TorchState) (lossB : List Vec → List ℕ → ℚ)
    (bs : List Batch) (size : ℕ) :
    (test_loop st lossB bs size).1 = st := by
  cases st with
  | mk model g =>
    simp [test_loop, foldl_testStep_fst]

/-- The loss accumulator of the evaluation fold collects the sum of the
per-batch loss values, each computed by a forward pass of the (never
changing) model in the threaded state. -/
theorem foldl_testStep_loss (lossB : List Vec → List ℕ → ℚ)
    (bs : List Batch) (a : TorchState × ℚ × ℚ) :
    (bs.foldl (testStep lossB) a).2.1 =
      a.2.1 + (bs.map fun b => lossB (forwardBatch a.1.model b.1) b.2).sum := by
  induction bs generalizing a with
  | nil => simp
  | cons b rest ih =>
    rw [List.foldl_cons, ih (testStep lossB a b)]
    simp only [testStep, List.map_cons, List.sum_cons]
    ring

/-- The correct-count accumulator of the evaluation fold collects the
sum of the per-batch counts of correct top-1 predictions. -/
theorem foldl_testStep_correct (lossB : List Vec → List ℕ → ℚ)
    (bs : List Batch) (a : TorchState × ℚ × ℚ) :
    (bs.foldl (testStep lossB) a).2.2 =
      a.2.2 + (bs.map fun b => (countCorrect (forwardBatch a.1.model b.1) b.2 : ℚ)).sum := by
  induction bs generalizing a with
  | nil => simp
  | cons b rest ih =>
    rw [List.foldl_cons, ih (testStep lossB a b)]
    simp only [testStep, List.map_cons, List.sum_cons]
    ring

/-- **C1.** The forward pass applies its stages in sequence (a left fold
of stage application over the stage list); every component `j` of a
linear stage's output is `dot (weight[j]) input + bias[j]`, i.e.
`input · weightᵀ + bias` (absent when row `j` of the weight or the bias
is absent, shapes being unvalidated); and every component `i` of the
nonlinearity stage's output is `max 0 input[i]`. -/
theorem c1_forward_stage_semantics :
    (∀ (stages : List Stage) (x : Vec),
      forward stages x = stages.foldl (fun v s => s.apply v) x) ∧
    (∀ (w : Mat) (b : Vec) (x : Vec) (j : ℕ),
      (linearForward w b x)[j]? =
        (w[j]?).bind (fun row => (b[j]?).map (fun bj => dot row x + bj))) ∧
    (∀ (x : Vec) (i : ℕ), (relu x)[i]? = (x[i]?).map (fun v => max 0 v)) := by
  refine ⟨?_, ?_, ?_⟩
  · intro stages
    induction stages with
    | nil => intro x; rfl
    | cons s rest ih => intro x; simpa [forward] using ih (s.apply x)
  · intro w b x j
    induction w generalizing b j with
    | nil => simp [linearForward]
    | cons row rest ih =>
      cases b with
      | nil => simp [linearForward]
      | cons bj brest =>
        cases j with
        | zero => simp [linearForward]
        | succ j =>
          have := ih brest j
          simpa [linearForward] using this
  · intro x i
    simp [relu]

/-- **C2.** Per training batch, `train_loop` performs exactly one
forward/loss/gradient/update step: processing `b :: bs` applies one SGD
update for `b` (from the gradients the framework's reverse-mode
differentiation returns for the cross-entropy loss of the forward pass
on `b`, embedded as the oracle `gf`) and then recurses on `bs`;
equivalently the whole loop is a left fold of single updates in batch
order. The epoch loop makes `epochs` full passes, each one `train_loop`
over all training batches (the interleaved `test_loop` leaves the model
untouched). Each parameter scalar is updated to
`p - learning_rate * gradient`. -/
theorem c2_training_loop_semantics :
    (∀ (lr : ℚ) (gf : List Stage → Batch → Grads) (m : List Stage) (b : Batch)
        (bs : List Batch),
      train_loop lr gf m (b :: bs) = train_loop lr gf (sgdUpdate lr m (gf m b)) bs) ∧
    (∀ (lr : ℚ) (gf : List Stage → Batch → Grads) (m : List Stage) (bs : List Batch),
      train_loop lr gf m bs = bs.foldl (fun mm bb => sgdUpdate lr mm (gf mm bb)) m) ∧
    (∀ (lr : ℚ) (gf : List Stage → Batch → Grads) (trainBs : List Batch)
        (lossB : List Vec → List ℕ → ℚ) (testBs : List Batch) (size e : ℕ)
        (st : TorchState),
      epochsLoop lr gf trainBs lossB testBs size (e + 1) st =
        epochsLoop lr gf trainBs lossB testBs size e
          ⟨train_loop lr gf st.model trainBs, st.gradEnabled⟩) ∧
    (∀ (lr : ℚ) (p g : Vec) (j : ℕ),
      (paramUpdate lr p g)[j]? =
        (p[j]?).bind (fun a => (g[j]?).map (fun gg => a - lr * gg))) := by
  refine ⟨?_, ?_, ?_, ?_⟩
  · intro lr gf m b bs
    rfl
  · intro lr gf m bs
    induction bs generalizing m with
    | nil => rfl
    | cons b rest ih => simpa [train_loop, trainBatch] using ih (sgdUpdate lr m (gf m b))
  · intro lr gf trainBs lossB testBs size e st
    have h := test_loop_fst { st with model := train_loop lr gf st.model trainBs }
      lossB testBs size
    simp [epochsLoop, h]
  · intro lr p g j
    induction p generalizing g j with
    | nil => simp [paramUpdate]
    | cons a rest ih =>
      cases g with
      | nil => simp [paramUpdate]
      | cons gg grest =>
        cases j with
        | zero => simp [paramUpdate]
        | succ j => simpa [paramUpdate] using ih grest j

/-- **C8.** The evaluation loop is read-only with respect to the model:
the framework state after `test_loop` equals the state before it, so in
particular every stage of the stack — hence every weight matrix and
bias vector of every linear stage — is unchanged (the forward passes
inside run under the `torch.no_grad()` scope the definition of
`test_loop` establishes, and the gradient-tracking flag is restored on
exit). -/
theorem c8_test_loop_readonly (st : TorchState) (lossB : List Vec → List ℕ → ℚ)
    (batches : List Batch) (size : ℕ) :
    (test_loop st lossB batches size).1 = st ∧
    (∀ i : ℕ, ((test_loop st lossB batches size).1.model)[i]? = st.model[i]?) := by
  refine ⟨test_loop_fst st lossB batches size, ?_⟩
  intro i
  rw [test_loop_fst st lossB batches size]

/-- A ReLU stage contributes no entry to the state dict. -/
theorem state_dict_relu (m : List Stage) :
    state_dict (.reluStage :: m) = state_dict m := by
  simp [state_dict]

/-- A linear stage contributes its weight and bias to the state dict. -/
theorem state_dict_linear (w : Mat) (b : Vec) (m : List Stage) :
    state_dict (.linear w b :: m) = (w, b) :: state_dict m := by
  simp [state_dict]

/-- **C3.** Parameter round-trip: serializing the trained model's
parameter mapping (`state_dict`) and loading it into a freshly
constructed model of identical structure succeeds and reproduces the
trained model exactly, so re-running the forward pass on any input
yields an identical score vector (the embedding is over exact
rationals, so "within floating-point tolerance" holds as equality). -/
theorem c3_state_dict_roundtrip (m fresh : List Stage) (x : Vec)
    (h : fresh.map Stage.kind = m.map Stage.kind) :
    load_state_dict fresh (state_dict m) = some m ∧
    (load_state_dict fresh (state_dict m)).map (fun k => forward k x) =
      some (forward m x) := by
  have main : load_state_dict fresh (state_dict m) = some m := by
    induction fresh generalizing m with
    | nil =>
      cases m with
      | nil => rfl
      | cons s rest => simp at h
    | cons s rest ih =>
      cases m with
      | nil => simp at h
      | cons t mrest =>
        cases s with
        | reluStage =>
          cases t with
          | reluStage =>
            simp only [List.map_cons, List.cons.injEq] at h
            rw [state_dict_relu]
            simp [load_state_dict, ih mrest h.2]
          | linear w b => simp [Stage.kind] at h
        | linear w0 b0 =>
          cases t with
          | linear w b =>
            simp only [List.map_cons, List.cons.injEq] at h
            rw [state_dict_linear]
            simp [load_state_dict, ih mrest h.2]
          | reluStage => simp [Stage.kind] at h
  exact ⟨main, by rw [main]; rfl⟩

/-- Witness for C3: a two-stage trained model and a freshly constructed
model of the same structure with different parameters; loading the
saved mapping reproduces the trained model. -/
theorem c3_state_dict_roundtrip_witness :
    ([Stage.linear [[0]] [0], Stage.reluStage].map Stage.kind
        = [Stage.linear [[1]] [2], Stage.reluStage].map Stage.kind) ∧
    load_state_dict [Stage.linear [[0]] [0], Stage.reluStage]
        (state_dict [Stage.linear [[1]] [2], Stage.reluStage])
      = some [Stage.linear [[1]] [2], Stage.reluStage] :=
  ⟨rfl, (c3_state_dict_roundtrip [Stage.linear [[1]] [2], Stage.reluStage]
      [Stage.linear [[0]] [0], Stage.reluStage] [3] rfl).1⟩

/-- The average loss `test_loop` reports is the sum of the per-batch
loss values divided by the dataset size. -/
theorem test_loop_loss_eq (st : TorchState) (lossB : List Vec → List ℕ → ℚ)
    (batches : List Batch) (size : ℕ) :
    (test_loop st lossB batches size).2.1 =
      (batches.map fun b => lossB (forwardBatch st.model b.1) b.2).sum / (size : ℚ) := by
  simp [test_loop, foldl_testStep_loss]

/-- The accuracy `test_loop` reports is the total count of correct
top-1 predictions divided by the dataset size. -/
theorem test_loop_acc_eq (st : TorchState) (lossB : List Vec → List ℕ → ℚ)
    (batches : List Batch) (size : ℕ) :
    (test_loop st lossB batches size).2.2 =
      (batches.map fun b => (countCorrect (forwardBatch st.model b.1) b.2 : ℚ)).sum
        / (size : ℚ) := by
  simp [test_loop, foldl_testStep_correct]

/-- **C5.** The evaluation loop accumulates summed loss over the test
batches and a count of correct top-1 predictions (a prediction is
correct when the true label is the index of the maximum score), and
reports average loss = summed loss ÷ total samples and accuracy =
correct count ÷ total samples, `size` being the dataset's sample
count. -/
theorem c5_test_loop_reports (st : TorchState) (lossB : List Vec → List ℕ → ℚ)
    (batches : List Batch) (size : ℕ) :
    (test_loop st lossB batches size).2.1 =
      (batches.map fun b => lossB (forwardBatch st.model b.1) b.2).sum / (size : ℚ) ∧
    (test_loop st lossB batches size).2.2 =
      (batches.map fun b => (countCorrect (forwardBatch st.model b.1) b.2 : ℚ)).sum
        / (size : ℚ) :=
  ⟨test_loop_loss_eq st lossB batches size, test_loop_acc_eq st lossB batches size⟩

/-- A batch's correct count never exceeds its label count. -/
theorem countCorrect_le (preds : List Vec) (ys : List ℕ) :
    countCorrect preds ys ≤ ys.length := by
  unfold countCorrect
  calc (List.zipWith (fun p yy => decide (argmaxIdx p = yy)) preds ys).count true
      ≤ (List.zipWith (fun p yy => decide (argmaxIdx p = yy)) preds ys).length :=
        List.count_le_length _ _
    _ ≤ ys.length := by
        rw [List.length_zipWith]
        exact min_le_right _ _

/-- **C6.** Whenever the `size` passed to the evaluation loop is the
(positive) total number of labelled samples in the batches and the
framework's loss value is nonnegative on every batch (as cross-entropy
is), the reported accuracy lies in `[0, 1]` and the reported average
loss is `≥ 0`. -/
theorem c6_test_loop_bounds (st : TorchState) (lossB : List Vec → List ℕ → ℚ)
    (batches : List Batch) (size : ℕ)
    (hsize : 0 < size)
    (hcount : (batches.map fun b => b.2.length).sum = size)
    (hloss : ∀ b ∈ batches, 0 ≤ lossB (forwardBatch st.model b.1) b.2) :
    0 ≤ (test_loop st lossB batches size).2.1 ∧
    0 ≤ (test_loop st lossB batches size).2.2 ∧
    (test_loop st lossB batches size).2.2 ≤ 1 := by
  have hsq : (0 : ℚ) < (size : ℚ) := by exact_mod_cast hsize
  refine ⟨?_, ?_, ?_⟩
  · rw [test_loop_loss_eq]
    apply div_nonneg _ (le_of_lt hsq)
    apply List.sum_nonneg
    intro x hx
    rcases List.mem_map.mp hx with ⟨b, hb, rfl⟩
    exact hloss b hb
  · rw [test_loop_acc_eq]
    apply div_nonneg _ (le_of_lt hsq)
    apply List.sum_nonneg
    intro x hx
    rcases List.mem_map.mp hx with ⟨b, hb, rfl⟩
    positivity
  · rw [test_loop_acc_eq]
    rw [div_le_one hsq]
    have hnat : (batches.map fun b => countCorrect (forwardBatch st.model b.1) b.2).sum
        ≤ (batches.map fun b => b.2.length).sum :=
      List.sum_le_sum fun b _ => countCorrect_le _ _
    have hq : ((batches.map fun b => countCorrect (forwardBatch st.model b.1) b.2).sum : ℚ)
        ≤ (size : ℚ) := by
      rw [← hcount]
      exact_mod_cast hnat
    calc (batches.map fun b => (countCorrect (forwardBatch st.model b.1) b.2 : ℚ)).sum
        = ((batches.map fun b => countCorrect (forwardBatch st.model b.1) b.2).sum : ℚ) := by
          rw [Nat.cast_list_sum, List.map_map]
          rfl
      _ ≤ (size : ℚ) := hq

/-- Witness for C6: a one-batch, one-sample test set (the empty stack
applied to a 1×1 sample with label 0, constant-zero loss) reports
accuracy in `[0, 1]` and nonnegative average loss. -/
theorem c6_test_loop_bounds_witness :
    (0 < 1) ∧
    (([(([[[1]]] : List Mat), ([0] : List ℕ))].map fun b => b.2.length).sum = 1) ∧
    (0 ≤ (test_loop ⟨[], true⟩ (fun _ _ => 0) [([[[1]]], [0])] 1).2.1 ∧
     0 ≤ (test_loop ⟨[], true⟩ (fun _ _ => 0) [([[[1]]], [0])] 1).2.2 ∧
     (test_loop ⟨[], true⟩ (fun _ _ => 0) [([[[1]]], [0])] 1).2.2 ≤ 1) := by
  refine ⟨by decide, by decide, ?_⟩
  exact c6_test_loop_bounds ⟨[], true⟩ (fun _ _ => 0) [([[[1]]], [0])] 1
    (by decide) (by decide) (by intro b hb; exact le_refl 0)

/-- Flattening a 28×28 sample yields a 784-length vector. -/
theorem flattenImg_length (img : Mat) (h1 : img.length = 28)
    (h2 : ∀ row ∈ img, row.length = 28) :
    (flattenImg img).length = 784 := by
  have hmap : img.map List.length = List.replicate 28 28 := by
    have : ∀ n ∈ img.map List.length, n = 28 := by
      intro n hn
      rcases List.mem_map.mp hn with ⟨row, hrow, rfl⟩
      exact h2 row hrow
    have hrep := List.eq_replicate_of_mem this
    simpa [h1] using hrep
  simp [flattenImg, List.length_flatten, hmap]

/-- The stack's output length is the output width of its last linear
stage: 10 scores, one per class. -/
theorem forward_net_length (w1 : Mat) (b1 : Vec) (w2 : Mat) (b2 : Vec)
    (w3 : Mat) (b3 : Vec) (x : Vec) (h5 : w3.length = 10) (h6 : b3.length = 10) :
    (forward (neuralNetwork w1 b1 w2 b2 w3 b3) x).length = 10 := by
  simp [neuralNetwork, forward, Stage.apply, relu, linearForward,
    List.length_zipWith, h5, h6]

/-- **C7.** For a batch of `B` samples each a 28×28 grid, run through
the notebook's network (linear widths 784→512→512→10 as constructed),
the forward pass flattens each sample to a 784-length vector, keeps the
batch dimension (`B` outputs for `B` samples), and each output score
vector has length 10, so the output has shape `(B, 10)`. -/
theorem c7_output_shape (w1 : Mat) (b1 : Vec) (w2 : Mat) (b2 : Vec)
    (w3 : Mat) (b3 : Vec) (X : List Mat)
    (h1 : w1.length = 512) (h2 : b1.length = 512)
    (h3 : w2.length = 512) (h4 : b2.length = 512)
    (h5 : w3.length = 10) (h6 : b3.length = 10)
    (hX : ∀ img ∈ X, img.length = 28 ∧ ∀ row ∈ img, row.length = 28) :
    (∀ img ∈ X, (flattenImg img).length = 784) ∧
    (forwardBatch (neuralNetwork w1 b1 w2 b2 w3 b3) X).length = X.length ∧
    (∀ out ∈ forwardBatch (neuralNetwork w1 b1 w2 b2 w3 b3) X, out.length = 10) := by
  refine ⟨?_, ?_, ?_⟩
  · intro img himg
    exact flattenImg_length img (hX img himg).1 (hX img himg).2
  · simp [forwardBatch]
  · intro out hout
    rcases List.mem_map.mp hout with ⟨img, himg, rfl⟩
    exact forward_net_length w1 b1 w2 b2 w3 b3 (flattenImg img) h5 h6

set_option maxRecDepth 8000 in
/-- Witness for C7: the constructed parameter shapes (512/512/10 rows)
and a singleton batch holding one all-zero 28×28 sample; the forward
pass keeps the batch dimension and emits 10 scores. -/
theorem c7_output_shape_witness :
    (List.replicate 512 ([] : Vec)).length = 512 ∧
    (List.replicate 512 (0 : ℚ)).length = 512 ∧
    (List.replicate 10 ([] : Vec)).length = 10 ∧
    (List.replicate 10 (0 : ℚ)).length = 10 ∧
    (∀ img ∈ [List.replicate 28 (List.replicate 28 (0 : ℚ))],
      img.length = 28 ∧ ∀ row ∈ img, row.length = 28) ∧
    (forwardBatch
        (neuralNetwork (List.replicate 512 ([] : Vec)) (List.replicate 512 (0 : ℚ))
          (List.replicate 512 ([] : Vec)) (List.replicate 512 (0 : ℚ))
          (List.replicate 10 ([] : Vec)) (List.replicate 10 (0 : ℚ)))
        [List.replicate 28 (List.replicate 28 (0 : ℚ))]).length = 1 ∧
    (∀ out ∈ forwardBatch
        (neuralNetwork (List.replicate 512 ([] : Vec)) (List.replicate 512 (0 : ℚ))
          (List.replicate 512 ([] : Vec)) (List.replicate 512 (0 : ℚ))
          (List.replicate 10 ([] : Vec)) (List.replicate 10 (0 : ℚ)))
        [List.replicate 28 (List.replicate 28 (0 : ℚ))], out.length = 10) := by
  have hX : ∀ img ∈ [List.replicate 28 (List.replicate 28 (0 : ℚ))],
      img.length = 28 ∧ ∀ row ∈ img, row.length = 28 := by
    intro img himg
    rw [List.mem_singleton] at himg
    subst himg
    refine ⟨by simp, ?_⟩
    intro row hrow
    rw [List.eq_of_mem_replicate hrow]
    simp
  have H := c7_output_shape (List.replicate 512 ([] : Vec)) (List.replicate 512 (0 : ℚ))
    (List.replicate 512 ([] : Vec)) (List.replicate 512 (0 : ℚ))
    (List.replicate 10 ([] : Vec)) (List.replicate 10 (0 : ℚ))
    [List.replicate 28 (List.replicate 28 (0 : ℚ))]
    (by simp) (by simp) (by simp) (by simp) (by simp) (by simp) hX
  exact ⟨by simp, by simp, by simp, by simp, hX, by simpa using H.2.1, H.2.2⟩

/-- **C9.** The stack ends in a ReLU applied after the last linear
layer, so every component of the score vector the forward pass returns
is `≥ 0`, for every input vector and every parameter setting: the "raw"
class scores can never be negative. -/
theorem c9_scores_nonneg (w1 : Mat) (b1 : Vec) (w2 : Mat) (b2 : Vec)
    (w3 : Mat) (b3 : Vec) (x : Vec) :
    (forward (neuralNetwork w1 b1 w2 b2 w3 b3) x).all (fun v => decide (0 ≤ v)) = true := by
  show (relu (linearForward w3 b3 _)).all (fun v => decide (0 ≤ v)) = true
  rw [List.all_eq_true]
  intro v hv
  rcases List.mem_map.mp hv with ⟨u, hu, rfl⟩
  simpa using le_max_left 0 u

/-- Executing the translated stage trace on a flat vector agrees with
the original framework's sequential forward pass. -/
theorem runGraph_stack (stack : List Stage) (v : Vec) :
    runGraph
      (stack.map fun s =>
        match s with
        | .linear w b => GraphOp.gemm w b
        | .reluStage => GraphOp.reluOp) (.vec v) = some (.vec (forward stack v)) := by
  induction stack generalizing v with
  | nil => rfl
  | cons s rest ih =>
    cases s with
    | linear w b =>
      simpa [runGraph, runOp, forward, Stage.apply] using ih (linearForward w b v)
    | reluStage =>
      simpa [runGraph, runOp, forward, Stage.apply] using ih (relu v)

/-- **C4.** Export round-trip: for any stack and any input shaped like
one sample (in particular the all-zero sample used to trace the
export), running the exported portable graph through the independent
runtime succeeds and returns exactly the score vector the original
model's forward pass produces (the embedding is over exact rationals,
so agreement within floating-point tolerance holds as equality), and
the index of the maximum score — the top-1 predicted class — is
identical. -/
theorem c4_export_roundtrip (stack : List Stage) (img : Mat) :
    runGraph (exportGraph stack) (GVal.grid img) = some (GVal.vec (nnForward stack img)) ∧
    (runGraph (exportGraph stack) (GVal.grid img)).map GVal.argmax =
      some (argmaxIdx (nnForward stack img)) := by
  have h : runGraph (exportGraph stack) (GVal.grid img)
      = some (GVal.vec (nnForward stack img)) := by
    rw [exportGraph]
    show (runOp .flattenOp (.grid img)).bind _ = _
    rw [runOp]
    simpa [nnForward, flattenImg] using runGraph_stack stack img.flatten
  exact ⟨h, by rw [h]; rfl⟩

/-- The mode flag and the RNG seed are read by no stage of the stack:
the mode-aware forward pass equals the plain one. -/
theorem forwardM_eq_forward (training : Bool) (seed : ℕ) (stack : List Stage) (x : Vec) :
    forwardM training seed stack x = forward stack x := by
  induction stack generalizing x with
  | nil => rfl
  | cons s rest ih =>
    have h : s.applyM training seed x = s.apply x := by
      cases s <;> rfl
    calc forwardM training seed (s :: rest) x
        = forwardM training seed rest (s.applyM training seed x) := rfl
      _ = forward rest (s.applyM training seed x) := ih _
      _ = forward rest (s.apply x) := by rw [h]
      _ = forward (s :: rest) x := rfl

/-- **C10.** The stack holds only linear and ReLU stages — no dropout,
batch normalization, or any other mode-dependent or random stage — so
the forward pass is a deterministic function of the input and the
parameters: two runs under any training/evaluation mode flags and any
RNG seeds, on the same sample with the same parameters, produce equal
score vectors, and the result coincides with the plain forward pass
whether or not evaluation mode was set before inference. -/
theorem c10_forward_deterministic (t1 t2 : Bool) (s1 s2 : ℕ)
    (stack : List Stage) (img : Mat) :
    nnForwardM t1 s1 stack img = nnForwardM t2 s2 stack img ∧
    nnForwardM t1 s1 stack img = nnForward stack img := by
  constructor
  · rw [nnForwardM, nnForwardM, forwardM_eq_forward, forwardM_eq_forward]
  · rw [nnForwardM, nnForward, forwardM_eq_forward]
